import Mathlib

/-!
Shallow embedding of the pattern-detection and scoring engine of the
k8s-controller-survey repository (packages `analyzer`, `models`).

Go strings are modelled as Lean `String`; byte-level operations are modelled
at character granularity.  Go's `ast.Expr` / `ast.Stmt` are modelled by the
tagged variants below, restricted to the node shapes the detector inspects;
every other node shape is collapsed into the `other` constructors, which the
detector treats exactly as the Go code treats an unmatched dynamic type.
Each signalled node carries the line reported by `fset.Position(node.Pos()).Line`
and the string produced by `pd.extractSnippet(node)` for that node (snippet
extraction itself is modelled separately, see `extractSnippet` below).
-/

namespace Survey

/-- Character-list prefix test (`pat` starts `l`), used to build substring
containment the way Go's `strings.Contains` behaves. -/
def startsWithC : List Char → List Char → Bool
  | [], _ => true
  | _ :: _, [] => false
  | a :: as, b :: bs => a == b && startsWithC as bs

/-- Character-list substring containment: some suffix of `l` starts with `pat`.
Model of Go `strings.Contains`. -/
def containsSubC (l pat : List Char) : Bool :=
  startsWithC pat l ||
    match l with
    | [] => false
    | _ :: t => containsSubC t pat

/-- Model of Go `strings.Contains(s, pat)`. -/
def containsSub (s pat : String) : Bool :=
  containsSubC s.data pat.data

/-- Model of Go `strings.HasSuffix(s, suf)`. -/
def strEndsWith (s suf : String) : Bool :=
  startsWithC suf.data.reverse s.data.reverse

/-- Model of Go `strings.ToLower` (character-wise). -/
def lowerStr (s : String) : String :=
  String.mk (s.data.map Char.toLower)

/-- Go expression nodes, restricted to the shapes `PatternDetector` and
`ReconcileFinder` dispatch on: `ast.Ident`, `ast.SelectorExpr`,
`ast.CallExpr`, `ast.StarExpr` (receiver / type positions); every other node
is `other`.  A `call` node carries its reported source line and its extracted
snippet (the values of `fset.Position(call.Pos()).Line` and
`pd.extractSnippet(call)`). -/
inductive Expr where
  | ident (name : String)
  | sel (x : Expr) (selName : String)
  | call (fn : Expr) (args : List Expr) (line : Nat) (snip : String)
  | star (x : Expr)
  | other
deriving Repr

/-- Go statement nodes, restricted to the shapes the detector dispatches on:
`ast.ReturnStmt`, `ast.IfStmt` (with its then-block and else-block),
`ast.ForStmt`, `ast.RangeStmt`, an expression-bearing statement, and `other`.
Loop and if nodes carry their reported line and extracted snippet. -/
inductive Stmt where
  | ret (results : List Expr)
  | ifS (cond : Expr) (body : List Stmt) (els : List Stmt) (line : Nat) (snip : String)
  | forS (body : List Stmt) (line : Nat) (snip : String)
  | rangeS (body : List Stmt) (line : Nat) (snip : String)
  | exprS (e : Expr)
  | other
deriving Repr

/-- `models.Signal` (field `Type` is rendered `type`, a reserved word in Lean). -/
structure Signal where
  type : String
  Line : Nat
  Score : Int
  Snippet : String
  Description : String
deriving Repr, DecidableEq

/-- Signal-type constants from `pkg/models`. -/
def SignalListUnscoped : String := "list_unscoped"

def SignalListNamespaceScoped : String := "list_namespace_scoped"

def SignalListLabelScoped : String := "list_label_scoped"

def SignalGetReqScoped : String := "get_req_scoped"

def SignalGetDerived : String := "get_derived"

def SignalGetUnrelated : String := "get_unrelated"

def SignalLoopWrite : String := "loop_write"

def SignalSingleWrite : String := "single_write"

def SignalNotFoundEarlyReturn : String := "notfound_early_return"

def SignalNotFoundIgnore : String := "notfound_ignore"

/-- Classification thresholds from `pkg/models`. -/
def ThresholdEdgeTriggered : Int := -3

def ThresholdMostlyEdge : Int := 0

def ThresholdMostlySoTW : Int := 3

/-- The classification switch inside `analyzer.Classify`, as a function of the
summed score. -/
def classifyLabel (score : Int) : String :=
  if score ≤ ThresholdEdgeTriggered then "edge_triggered"
  else if score ≤ ThresholdMostlyEdge then "mostly_edge"
  else if score ≤ ThresholdMostlySoTW then "mostly_sotw"
  else "sotw"

/-- `analyzer.Classify`: sum the `Score` fields (accumulator starting at 0,
as the Go loop does) and classify the sum. -/
def Classify (signals : List Signal) : Int × String :=
  let score := signals.foldl (fun acc sig => acc + sig.Score) 0
  (score, classifyLabel score)

/-! ### Pattern Detector helper predicates (`pkg/analyzer`, pattern detection file) -/

/-- The fixed `clientFieldNames` installed by `NewPatternDetector`. -/
def clientFieldNames : List String := ["Client", "client", "c"]

/-- `isClientIdentifier`: the name is one of the fixed client field names, or
its lower-casing contains `"client"`. -/
def isClientIdentifier (name : String) : Bool :=
  clientFieldNames.contains name || containsSub (lowerStr name) "client"

/-- The `isClientMethod` test computed at the top of `isClientCall`. -/
def isClientMethodName (m : String) : Bool :=
  m == "Get" || m == "List" || m == "Create" || m == "Update" ||
    m == "Delete" || m == "Patch"

/-- `isClientCall` on a selector expression, given as its receiver `x` and the
selected member name `m` (Go passes the `*ast.SelectorExpr` itself; here the
two components are passed separately).  Mirrors the Go type-switch on `sel.X`:
identifier, nested selector (recursing with the inner member as the new
method name), chained call whose function is itself a selector, and the
default `false`. -/
def isClientCall : Expr → String → Bool
  | .ident n, m => isClientIdentifier n || isClientMethodName m
  | .sel y s, _ => isClientIdentifier s || isClientCall y s
  | .call (.sel y s) _ _ _, _ => isClientCall y s
  | _, _ => false

/-! `referencesReqParam`: `ast.Inspect` over the expression looking for an
identifier equal to the request parameter name.  Note that Go's walk visits
the `Sel` identifier of a `SelectorExpr` as an `*ast.Ident` node, hence the
`s == req` disjunct in the selector case.  The list helper is the explicit
recursion of the walk over a call's argument list. -/
mutual
def referencesReqParam (req : String) : Expr → Bool
  | .ident n => n == req
  | .sel x s => referencesReqParam req x || s == req
  | .call f args _ _ => referencesReqParam req f || referencesReqParamList req args
  | .star x => referencesReqParam req x
  | .other => false
def referencesReqParamList (req : String) : List Expr → Bool
  | [] => false
  | a :: as => referencesReqParam req a || referencesReqParamList req as
end

/-- `isReqNamespacedName`: the expression is exactly a selector
`<req>.NamespacedName` on an identifier equal to the request parameter name. -/
def isReqNamespacedName (req : String) : Expr → Bool
  | .sel (.ident n) s => s == "NamespacedName" && n == req
  | _ => false

/-- `isNamespaceOption`: a call whose function is an identifier, or a selector
whose member name, contains the substring `"InNamespace"`. -/
def isNamespaceOption : Expr → Bool
  | .call (.ident n) _ _ _ => containsSub n "InNamespace"
  | .call (.sel _ s) _ _ _ => containsSub s "InNamespace"
  | _ => false

/-- `isLabelMatchOption`: a call whose function's final identifier contains
`"MatchingLabels"` or `"MatchingFields"`. -/
def isLabelMatchOption : Expr → Bool
  | .call (.ident n) _ _ _ =>
      containsSub n "MatchingLabels" || containsSub n "MatchingFields"
  | .call (.sel _ s) _ _ _ =>
      containsSub s "MatchingLabels" || containsSub s "MatchingFields"
  | _ => false

/-- `isNotFoundCheck`: the condition is a call whose function is a selector
with member name exactly `"IsNotFound"`. -/
def isNotFoundCheck : Expr → Bool
  | .call (.sel _ s) _ _ _ => s == "IsNotFound"
  | _ => false

/-- `isEarlyReturn`: some statement directly in the block is a return. -/
def isEarlyReturn (body : List Stmt) : Bool :=
  body.any fun st =>
    match st with
    | .ret _ => true
    | _ => false

/-- `isNilReturn`: some return statement directly in the block has the
identifier `nil` among its result expressions. -/
def isNilReturn (body : List Stmt) : Bool :=
  body.any fun st =>
    match st with
    | .ret rs =>
        rs.any fun r =>
          match r with
          | .ident n => n == "nil"
          | _ => false
    | _ => false

/-! ### Call-expression signals -/

/-- The zero `models.Signal{}` value returned by the `analyze*Call` functions
on malformed argument lists; `detectCallPatterns` recognises it by its empty
`Type` field. -/
def emptySignal : Signal := ⟨"", 0, 0, "", ""⟩

/-- `analyzeListCall` on the call's argument list, reported line and snippet.
Fewer than two arguments is malformed; otherwise the three option flags are
computed over the arguments past `ctx` and the list object, and the signal is
chosen exactly as in the source: unscoped when no option references the
request parameter, namespace-scoped when a namespace option is present and no
label/field option is, label-scoped otherwise. -/
def analyzeListCall (req : String) (args : List Expr) (line : Nat) (snip : String) : Signal :=
  match args with
  | _ :: _ :: opts =>
      let hasReqScopedOpts := opts.any fun arg => referencesReqParam req arg
      let hasNamespaceOpt := opts.any isNamespaceOption
      let hasLabelOpt := opts.any isLabelMatchOption
      if !hasReqScopedOpts then
        ⟨SignalListUnscoped, line, 3, snip, "client.List without request-scoped selectors"⟩
      else if hasNamespaceOpt && !hasLabelOpt then
        ⟨SignalListNamespaceScoped, line, 1, snip, "client.List scoped to request namespace only"⟩
      else
        ⟨SignalListLabelScoped, line, 0, snip, "client.List scoped by labels/fields derived from request"⟩
  | _ => emptySignal

/-- `analyzeGetCall`: fewer than three arguments is malformed; otherwise the
key argument (`call.Args[1]`) is tested first for the exact
`req.NamespacedName` shape, then for any reference to the request parameter. -/
def analyzeGetCall (req : String) (args : List Expr) (line : Nat) (snip : String) : Signal :=
  match args with
  | _ :: keyArg :: _ :: _ =>
      if isReqNamespacedName req keyArg then
        ⟨SignalGetReqScoped, line, -1, snip, "client.Get with req.NamespacedName (primary resource fetch)"⟩
      else if referencesReqParam req keyArg then
        ⟨SignalGetDerived, line, -1, snip, "client.Get with key derived from request"⟩
      else
        ⟨SignalGetUnrelated, line, 1, snip, "client.Get with key not derived from request"⟩
  | _ => emptySignal

/-- `analyzeWriteCall`: every matched write call yields a single-write signal
with the method name interpolated into the description. -/
def analyzeWriteCall (method : String) (line : Nat) (snip : String) : Signal :=
  ⟨SignalSingleWrite, line, -1, snip, "client." ++ method ++ " call"⟩

/-- `detectCallPatterns`: the call's function must be a selector (otherwise no
signal); the selector must pass `isClientCall`; then the member name is
dispatched as in the Go `switch`, keeping a produced signal only when its
`Type` is non-empty. -/
def detectCallPatterns (req : String) : Expr → List Signal
  | .call (.sel x methodName) args line snip =>
      if isClientCall x methodName then
        if methodName == "List" then
          let sig := analyzeListCall req args line snip
          if sig.type == "" then [] else [sig]
        else if methodName == "Get" then
          let sig := analyzeGetCall req args line snip
          if sig.type == "" then [] else [sig]
        else if methodName == "Create" || methodName == "Update" ||
            methodName == "Delete" || methodName == "Patch" then
          let sig := analyzeWriteCall methodName line snip
          if sig.type == "" then [] else [sig]
        else []
      else []
  | _ => []

/-! ### Conditional signals -/

/-- `detectControlFlowPatterns` on an if-statement: an `IsNotFound` condition
with a direct return in the body yields either the ignore signal (a `nil`
among some top-level return's values) or the early-return signal; with no
direct return, nothing. -/
def detectControlFlowPatterns : Stmt → List Signal
  | .ifS cond body _ line snip =>
      if isNotFoundCheck cond then
        if isEarlyReturn body then
          if isNilReturn body then
            [⟨SignalNotFoundIgnore, line, -1, snip, "Early return on NotFound (ignores deletes)"⟩]
          else
            [⟨SignalNotFoundEarlyReturn, line, -2, snip, "NotFound handling with delete logic (classic edge-triggered pattern)"⟩]
        else []
      else []
  | _ => []

/-! ### Loop signals -/

/-- Verbs counted as client writes by `hasWriteOperation`. -/
def isWriteVerb (m : String) : Bool :=
  m == "Create" || m == "Update" || m == "Delete" || m == "Patch"

/-- The test `hasWriteOperation` applies to a call's function: a selector
passing `isClientCall` whose member name is a write verb. -/
def isClientWriteFun : Expr → Bool
  | .sel x s => isClientCall x s && isWriteVerb s
  | _ => false

/-! `hasWriteOperation`'s `ast.Inspect`: does any call node anywhere inside
the expression/statement have a client write function?  The early-exit in the
Go visitor only stops the walk once a write is found, so the result is the
plain existence of such a node. -/
mutual
def hasWriteExpr : Expr → Bool
  | .ident _ => false
  | .sel x _ => hasWriteExpr x
  | .call f args _ _ => isClientWriteFun f || hasWriteExpr f || hasWriteExprs args
  | .star x => hasWriteExpr x
  | .other => false
def hasWriteExprs : List Expr → Bool
  | [] => false
  | a :: as => hasWriteExpr a || hasWriteExprs as
end

mutual
def hasWriteStmt : Stmt → Bool
  | .ret rs => hasWriteExprs rs
  | .ifS cond body els _ _ => hasWriteExpr cond || hasWriteStmts body || hasWriteStmts els
  | .forS body _ _ => hasWriteStmts body
  | .rangeS body _ _ => hasWriteStmts body
  | .exprS e => hasWriteExpr e
  | .other => false
def hasWriteStmts : List Stmt → Bool
  | [] => false
  | s :: ss => hasWriteStmt s || hasWriteStmts ss
end

/-- `hasWriteOperation` on a block (list of statements). -/
def hasWriteOperation (body : List Stmt) : Bool :=
  hasWriteStmts body

/-- `detectLoopPatterns`: a `for`-loop whose body contains a client write
yields exactly one loop-write signal at the loop's own position. -/
def detectLoopPatterns : Stmt → List Signal
  | .forS body line snip =>
      if hasWriteOperation body then
        [⟨SignalLoopWrite, line, 3, snip, "Loop containing write operations (SoTW pattern)"⟩]
      else []
  | _ => []

/-- `detectRangeLoopPatterns`: the same rule for `range`-loops. -/
def detectRangeLoopPatterns : Stmt → List Signal
  | .rangeS body line snip =>
      if hasWriteOperation body then
        [⟨SignalLoopWrite, line, 3, snip, "Loop containing write operations (SoTW pattern)"⟩]
      else []
  | _ => []

/-! Number of client write-verb call nodes occurring anywhere inside an
expression: the count whose positivity the specification's phrase
"N ≥ 1 write-verb calls" refers to.  A node is counted exactly when
`hasWriteOperation`'s visitor would classify it as a client write. -/
mutual
def countWriteExpr : Expr → Nat
  | .ident _ => 0
  | .sel x _ => countWriteExpr x
  | .call f args _ _ =>
      (if isClientWriteFun f then 1 else 0) + countWriteExpr f + countWriteExprs args
  | .star x => countWriteExpr x
  | .other => 0
def countWriteExprs : List Expr → Nat
  | [] => 0
  | a :: as => countWriteExpr a + countWriteExprs as
end

mutual
def countWriteStmt : Stmt → Nat
  | .ret rs => countWriteExprs rs
  | .ifS cond body els _ _ => countWriteExpr cond + countWriteStmts body + countWriteStmts els
  | .forS body _ _ => countWriteStmts body
  | .rangeS body _ _ => countWriteStmts body
  | .exprS e => countWriteExpr e
  | .other => 0
def countWriteStmts : List Stmt → Nat
  | [] => 0
  | s :: ss => countWriteStmt s + countWriteStmts ss
end

/-! ### Signature Matcher (`pkg/analyzer/reconcile.go`) -/

/-- `ast.Field`: a parameter/result/receiver entry with its declared names and
its type expression (types are expressions in Go's AST; type expressions
reuse `Expr`, with `star` for pointer types). -/
structure Field where
  names : List String
  type : Expr
deriving Repr

/-- The parameter and result lists of `ast.FuncType`.  Go distinguishes a
`nil` field list from an empty one, but `matchesReconcileSignature` treats
them identically (both fail the length-2 test), so both are modelled as `[]`. -/
structure FuncType where
  params : List Field
  results : List Field
deriving Repr

/-- `ast.FuncDecl`: receiver field list (`none` models a free function),
name, and signature. -/
structure FuncDecl where
  recv : Option (List Field)
  name : String
  ftype : FuncType
deriving Repr

/-- A syntax file: the name reported by `fset.Position(file.Pos()).Filename`
and its top-level function declarations in order. -/
structure File where
  fileName : String
  decls : List FuncDecl
deriving Repr

/-- `packages.Package` as `ReconcileFinder` consumes it: the import path, the
optional resolved-type oracle (`pkg.TypesInfo`, modelled as a map from a type
expression to the resolved-type description string that
`TypesInfo.TypeOf(expr).String()` would produce, `none` inner value modelling
a `nil` `TypeOf` result), and the parsed files. -/
structure Pkg where
  pkgPath : String
  typesInfo : Option (Expr → Option String)
  files : List File

/-- `ReconcileFunc`: a discovered candidate; the package and file are
recorded by their path and name. -/
structure ReconcileFunc where
  pkgPath : String
  fileName : String
  fn : FuncDecl
  ReceiverType : String
  ReceiverPkg : String

/-- `typeNameContains`: a bare identifier or a member access is answered from
its (final) syntactic name alone, with no resolver consultation; any other
type expression falls back to the resolved-type description when a resolver
is available and yields a description, and to `false` otherwise. -/
def typeNameContains (expr : Expr) (resolver : Option (Expr → Option String))
    (substr : String) : Bool :=
  match expr with
  | .ident n => containsSub n substr
  | .sel _ s => containsSub s substr
  | _ =>
      match resolver with
      | some tyOf =>
          match tyOf expr with
          | some ty => containsSub ty substr
          | none => false
      | none => false

/-- `isContextType`. -/
def isContextType (e : Expr) (r : Option (Expr → Option String)) : Bool :=
  typeNameContains e r "Context"

/-- `isRequestType`. -/
def isRequestType (e : Expr) (r : Option (Expr → Option String)) : Bool :=
  typeNameContains e r "Request"

/-- `isResultType`. -/
def isResultType (e : Expr) (r : Option (Expr → Option String)) : Bool :=
  typeNameContains e r "Result"

/-- `isErrorType`: the type is exactly the identifier `error`. -/
def isErrorType : Expr → Bool
  | .ident n => n == "error"
  | _ => false

/-- `matchesReconcileSignature`: fewer than two parameters or fewer than two
results is a non-match; otherwise the first two parameters must carry the
context and request markers, the first result the result marker, and the
second result must be exactly `error`. -/
def matchesReconcileSignature (resolver : Option (Expr → Option String))
    (fn : FuncDecl) : Bool :=
  match fn.ftype.params, fn.ftype.results with
  | p0 :: p1 :: _, r0 :: r1 :: _ =>
      isContextType p0.type resolver && isRequestType p1.type resolver &&
        isResultType r0.type resolver && isErrorType r1.type
  | _, _ => false

/-- `extractReceiverInfo`: strip a pointer receiver and take the final
identifier of the receiver type, with `"unknown"` for other shapes; the
package half is the package path. -/
def extractReceiverInfo (fn : FuncDecl) (pkgPath : String) : String × String :=
  match fn.recv with
  | some (recvField :: _) =>
      let recvType :=
        match recvField.type with
        | .star u => u
        | t => t
      let typeName :=
        match recvType with
        | .ident n => n
        | .sel _ n => n
        | _ => "unknown"
      (typeName, pkgPath)
  | _ => ("", "")

/-- The per-declaration selection test inside `FindReconcileFunctions`'s
`ast.Inspect` callback: a present, non-empty receiver list, the name
`Reconcile`, and a matching signature. -/
def reconcileDeclKeep (resolver : Option (Expr → Option String)) (d : FuncDecl) : Bool :=
  (match d.recv with
   | some (_ :: _) => true
   | _ => false) &&
    d.name == "Reconcile" && matchesReconcileSignature resolver d

/-- `FindReconcileFunctions`: skip packages whose import path ends in
`_test` and files whose name ends in `_test.go`; in the remaining files,
keep every declaration passing `reconcileDeclKeep`, in declaration order,
files in order, packages in order. -/
def FindReconcileFunctions (pkgs : List Pkg) : List ReconcileFunc :=
  (pkgs.filter fun p => !strEndsWith p.pkgPath "_test").flatMap fun p =>
    (p.files.filter fun f => !strEndsWith f.fileName "_test.go").flatMap fun f =>
      (f.decls.filter (reconcileDeclKeep p.typesInfo)).map fun d =>
        ⟨p.pkgPath, f.fileName, d, (extractReceiverInfo d p.pkgPath).1,
          (extractReceiverInfo d p.pkgPath).2⟩

/-- Whether a type expression has a final syntactic identifier segment that
`typeNameContains` would answer from (a bare identifier or a member access). -/
def hasSyntacticTypeName : Expr → Bool
  | .ident _ => true
  | .sel _ _ => true
  | _ => false

/-- A well-formed reconciliation method declaration
(`func (r *MyReconciler) Reconcile(ctx context.Context, req ctrl.Request)
(ctrl.Result, error)`), used for concrete checks. -/
def exampleReconcileDecl : FuncDecl :=
  ⟨some [⟨["r"], Expr.star (Expr.ident "MyReconciler")⟩], "Reconcile",
    ⟨[⟨["ctx"], Expr.sel (Expr.ident "context") "Context"⟩,
      ⟨["req"], Expr.sel (Expr.ident "ctrl") "Request"⟩],
      [⟨[], Expr.sel (Expr.ident "ctrl") "Result"⟩, ⟨[], Expr.ident "error"⟩]⟩⟩

/-- A package list carrying `exampleReconcileDecl` three times: in a `_test`
package, in a `_test.go` file of a normal package, and in a normal file of
the normal package.  Only the last copy is selectable. -/
def examplePkgs : List Pkg :=
  [⟨"example.com/controllers_test", none, [⟨"suite.go", [exampleReconcileDecl]⟩]⟩,
   ⟨"example.com/controllers", none,
    [⟨"controller_test.go", [exampleReconcileDecl]⟩,
     ⟨"controller.go", [exampleReconcileDecl]⟩]⟩]

/-- The single candidate selected from `examplePkgs`. -/
def exampleReconcileFunc : ReconcileFunc :=
  ⟨"example.com/controllers", "controller.go", exampleReconcileDecl,
    "MyReconciler", "example.com/controllers"⟩

/-! ### Snippet Extractor -/

/-- A node as `extractSnippet` sees it: the two byte offsets reported by
`fset.Position(node.Pos()).Offset` / `fset.Position(node.End()).Offset`, and
the outcomes of the two re-rendering attempts for this node
(`printer.Config.Fprint` and, on its error, `format.Node`; `none` models the
renderer returning an error). -/
structure SnippetNode where
  startOff : Int
  endOff : Int
  render1 : Option String
  render2 : Option String

/-- The whitespace class used by Go's `strings.Fields` / `strings.TrimSpace`
(`unicode.IsSpace`), restricted to the ASCII whitespace characters. -/
def isSpaceChar (c : Char) : Bool :=
  c == ' ' || c == '\t' || c == '\n' || c == '\r' ||
    c == Char.ofNat 11 || c == Char.ofNat 12

/-- `strings.Fields` over a character list: maximal whitespace-free runs, in
order, dropping empties; `acc` is the current run reversed. -/
def fieldsC : List Char → List Char → List (List Char)
  | [], acc => if acc.isEmpty then [] else [acc.reverse]
  | c :: cs, acc =>
      if isSpaceChar c then
        if acc.isEmpty then fieldsC cs [] else acc.reverse :: fieldsC cs []
      else fieldsC cs (c :: acc)

/-- `strings.Join(fields, " ")` over character-list fields. -/
def joinSpC : List (List Char) → List Char
  | [] => []
  | [w] => w
  | w :: v :: r => w ++ ' ' :: joinSpC (v :: r)

/-- The whitespace normalization inside `truncateSnippet`:
`strings.Join(strings.Fields(s), " ")`.  The preceding `strings.TrimSpace`
is subsumed: `Fields` already discards leading and trailing whitespace. -/
def collapseC (l : List Char) : List Char :=
  joinSpC (fieldsC l [])

/-- `truncateSnippet`: whitespace-normalize, then cut at 200 characters and
append the three-dot ellipsis marker when over the limit (Go counts bytes;
the model counts characters). -/
def truncateSnippet (s : String) : String :=
  if 200 < (collapseC s.data).length then
    String.mk ((collapseC s.data).take 200 ++ ['.', '.', '.'])
  else String.mk (collapseC s.data)

/-- The raw-bytes guard of `extractSnippet`: source bytes are present and
non-empty, and the node's offsets satisfy
`start >= 0 && end <= len(fileData) && start < end`. -/
def sliceValid (fileData : Option String) (n : SnippetNode) : Bool :=
  match fileData with
  | some data =>
      decide (0 < data.data.length) && decide (0 ≤ n.startOff) &&
        decide (n.endOff ≤ (data.data.length : Int)) && decide (n.startOff < n.endOff)
  | none => false

/-- The slice `fileData[start:end]`. -/
def sliceOf (data : String) (n : SnippetNode) : String :=
  String.mk ((data.data.drop n.startOff.toNat).take (n.endOff.toNat - n.startOff.toNat))

/-- The printer fallback of `extractSnippet`: the first renderer's output if
it succeeds, else the second's, else the literal `"<unprintable>"` marker;
successful renders are truncated like sliced snippets. -/
def renderFallback (n : SnippetNode) : String :=
  match n.render1 with
  | some s => truncateSnippet s
  | none =>
      match n.render2 with
      | some s => truncateSnippet s
      | none => "<unprintable>"

/-- `extractSnippet`: slice the raw bytes when present with valid offsets,
otherwise fall back to re-rendering; both paths truncate. -/
def extractSnippet (fileData : Option String) (n : SnippetNode) : String :=
  if sliceValid fileData n then
    match fileData with
    | some data => truncateSnippet (sliceOf data n)
    | none => renderFallback n
  else renderFallback n

/-- A run of characters free of whitespace. -/
def allNonSpace (l : List Char) : Bool :=
  l.all fun c => !isSpaceChar c

/-- Every whitespace character in the list is a plain space. -/
def onlyPlainSpace (l : List Char) : Bool :=
  l.all fun c => !isSpaceChar c || c == ' '

/-- No two adjacent plain spaces. -/
def noDoubleSpace : List Char → Bool
  | a :: b :: r => !(a == ' ' && b == ' ') && noDoubleSpace (b :: r)
  | _ => true

/-- Neither end of the list is a space character. -/
def noEdgeSpace (l : List Char) : Bool :=
  (match l with
   | [] => true
   | c :: _ => !isSpaceChar c) &&
    (match l.reverse with
     | [] => true
     | c :: _ => !isSpaceChar c)

/-- Fully normalized whitespace: only single plain spaces, none at either end. -/
def wsNormalized (l : List Char) : Bool :=
  onlyPlainSpace l && noDoubleSpace l && noEdgeSpace l

/-! ### Scorer/Classifier theorems -/

/-- Rank of a classification label in the order induced by the thresholds;
used to state that classification is monotone in the score. -/
def labelRank : String → Nat
  | "edge_triggered" => 0
  | "mostly_edge" => 1
  | "mostly_sotw" => 2
  | _ => 3

/-- C1: the classification is a pure total step function of the summed score
alone, with the four bands exactly `score ≤ −3 → edge_triggered`,
`−3 < score ≤ 0 → mostly_edge`, `0 < score ≤ 3 → mostly_sotw`,
`score > 3 → sotw`; in particular the boundary scores −3, 0, 3, 4 map to
`edge_triggered`, `mostly_edge`, `mostly_sotw`, `sotw` respectively, every
score gets exactly one of the four labels, the classification of a signal
list depends only on its summed score, and the label rank is monotone in the
score. -/
theorem c1_classify_bands :
    (∀ score : Int,
      (classifyLabel score = "edge_triggered" ↔ score ≤ -3) ∧
      (classifyLabel score = "mostly_edge" ↔ -3 < score ∧ score ≤ 0) ∧
      (classifyLabel score = "mostly_sotw" ↔ 0 < score ∧ score ≤ 3) ∧
      (classifyLabel score = "sotw" ↔ 3 < score)) ∧
    classifyLabel (-3) = "edge_triggered" ∧
    classifyLabel 0 = "mostly_edge" ∧
    classifyLabel 3 = "mostly_sotw" ∧
    classifyLabel 4 = "sotw" ∧
    (∀ signals : List Signal, (Classify signals).2 = classifyLabel (Classify signals).1) ∧
    (∀ score : Int,
      classifyLabel score = "edge_triggered" ∨ classifyLabel score = "mostly_edge" ∨
      classifyLabel score = "mostly_sotw" ∨ classifyLabel score = "sotw") ∧
    (∀ s t : Int, s ≤ t → labelRank (classifyLabel s) ≤ labelRank (classifyLabel t)) := by
  refine ⟨?_, by decide, by decide, by decide, by decide, ?_, ?_, ?_⟩
  · intro s
    unfold classifyLabel ThresholdEdgeTriggered ThresholdMostlyEdge ThresholdMostlySoTW
    split_ifs with h1 h2 h3 <;>
      refine ⟨?_, ?_, ?_, ?_⟩ <;> simp_all <;> omega
  · intro signals
    rfl
  · intro s
    unfold classifyLabel
    split_ifs <;> simp
  · intro s t hst
    unfold classifyLabel ThresholdEdgeTriggered ThresholdMostlyEdge ThresholdMostlySoTW
    split_ifs <;> simp_all [labelRank] <;> omega

/-- Witness for C1 at concrete scores: −5 ≤ 7, and the induced label ranks
are ordered accordingly. -/
theorem c1_classify_bands_witness :
    labelRank (classifyLabel (-5)) ≤ labelRank (classifyLabel 7) := by
  have h := c1_classify_bands
  exact h.2.2.2.2.2.2.2 (-5) 7 (by decide)

/-- C2: the score computed by `Classify` is the sum of the `Score` fields of
the signals, for every list including the empty one, whose score is 0 and
classification `mostly_edge`. -/
theorem c2_score_is_sum :
    (∀ signals : List Signal,
      (Classify signals).1 = (signals.map Signal.Score).sum) ∧
    Classify [] = (0, "mostly_edge") := by
  constructor
  · intro signals
    have key : ∀ (l : List Signal) (a : Int),
        l.foldl (fun acc sig => acc + sig.Score) a = a + (l.map Signal.Score).sum := by
      intro l
      induction l with
      | nil => intro a; simp
      | cons x xs ih =>
          intro a
          simp only [List.foldl_cons, List.map_cons, List.sum_cons, ih]
          ring
    simpa using key signals 0
  · rfl

/-! ### Pattern Detector theorems: call-expression signals -/

/-- C3, counterexample.  A client `List` call whose only option is
`InNamespace("hardcoded")` — a recognized namespace-scope option that does
not reference the request parameter — satisfies every hypothesis of the
claim (client-call test passes, at least two arguments, a namespace-scope
option among the arguments past the first two, no label/field-scope option),
yet the detector emits `list_unscoped` with score +3, not
`list_namespace_scoped` with score +1: `analyzeListCall` tests
"no option references the request parameter" first. -/
theorem c3_namespace_list_counterexample :
    isClientCall (Expr.ident "client") "List" = true ∧
    isNamespaceOption (Expr.call (Expr.ident "InNamespace") [Expr.ident "hardcoded"] 10 "InNamespace(hardcoded)") = true ∧
    isLabelMatchOption (Expr.call (Expr.ident "InNamespace") [Expr.ident "hardcoded"] 10 "InNamespace(hardcoded)") = false ∧
    detectCallPatterns "req"
      (Expr.call (Expr.sel (Expr.ident "client") "List")
        [Expr.ident "ctx", Expr.ident "podList",
         Expr.call (Expr.ident "InNamespace") [Expr.ident "hardcoded"] 10 "InNamespace(hardcoded)"]
        10 "client.List(ctx, podList, InNamespace(hardcoded))")
      = [⟨SignalListUnscoped, 10, 3,
          "client.List(ctx, podList, InNamespace(hardcoded))",
          "client.List without request-scoped selectors"⟩] := by
  refine ⟨by decide, by decide, by decide, ?_⟩
  rfl

/-- C3 as amended: for a list-verb call that passes the client-call test and
has at least two arguments, if some argument beyond the first two is a
recognized namespace-scope option call, no argument beyond the first two is a
label/field-scope option call, and additionally some argument beyond the
first two references the request parameter, then the detector emits the
namespace-scoped-list signal with score +1 for that call. -/
theorem c3_namespace_list_amended (req : String) (x a b : Expr) (opts : List Expr)
    (line : Nat) (snip : String)
    (hclient : isClientCall x "List" = true)
    (hreq : (opts.any fun arg => referencesReqParam req arg) = true)
    (hns : opts.any isNamespaceOption = true)
    (hlabel : opts.any isLabelMatchOption = false) :
    detectCallPatterns req (Expr.call (Expr.sel x "List") (a :: b :: opts) line snip)
      = [⟨SignalListNamespaceScoped, line, 1, snip,
          "client.List scoped to request namespace only"⟩] := by
  simp [detectCallPatterns, hclient, analyzeListCall, hreq, hns, hlabel,
    SignalListNamespaceScoped]

/-- Witness for the amended C3 at a concrete call:
`r.List(ctx, podList, InNamespace(req.Namespace))`. -/
theorem c3_namespace_list_amended_witness :
    detectCallPatterns "req"
      (Expr.call (Expr.sel (Expr.ident "r") "List")
        [Expr.ident "ctx", Expr.ident "podList",
         Expr.call (Expr.ident "InNamespace") [Expr.sel (Expr.ident "req") "Namespace"] 11 "InNamespace(req.Namespace)"]
        11 "r.List(ctx, podList, InNamespace(req.Namespace))")
      = [⟨SignalListNamespaceScoped, 11, 1,
          "r.List(ctx, podList, InNamespace(req.Namespace))",
          "client.List scoped to request namespace only"⟩] :=
  c3_namespace_list_amended "req" (Expr.ident "r") (Expr.ident "ctx") (Expr.ident "podList")
    [Expr.call (Expr.ident "InNamespace") [Expr.sel (Expr.ident "req") "Namespace"] 11 "InNamespace(req.Namespace)"]
    11 "r.List(ctx, podList, InNamespace(req.Namespace))"
    (by decide) (by decide) (by decide) (by decide)

/-- C4: a get-verb call that passes the client-call test, has at least three
arguments, and whose key argument (the second) is syntactically exactly
`<req>.NamespacedName` on the request parameter's local name, yields exactly
the one `get_req_scoped` signal with score −1 — never `get_derived` or
`get_unrelated`.  The detector consults no symbol resolver anywhere on this
path (the embedding takes none), so the result is independent of resolver
availability. -/
theorem c4_get_req_scoped (req : String) (x a c : Expr) (rest : List Expr)
    (line : Nat) (snip : String)
    (hclient : isClientCall x "Get" = true) :
    detectCallPatterns req
      (Expr.call (Expr.sel x "Get")
        (a :: Expr.sel (Expr.ident req) "NamespacedName" :: c :: rest) line snip)
      = [⟨SignalGetReqScoped, line, -1, snip,
          "client.Get with req.NamespacedName (primary resource fetch)"⟩] := by
  simp [detectCallPatterns, hclient, analyzeGetCall, isReqNamespacedName,
    SignalGetReqScoped]

/-- Witness for C4 at a concrete call: `r.Get(ctx, req.NamespacedName, obj)`. -/
theorem c4_get_req_scoped_witness :
    detectCallPatterns "req"
      (Expr.call (Expr.sel (Expr.ident "r") "Get")
        [Expr.ident "ctx", Expr.sel (Expr.ident "req") "NamespacedName", Expr.ident "obj"]
        21 "r.Get(ctx, req.NamespacedName, obj)")
      = [⟨SignalGetReqScoped, 21, -1, "r.Get(ctx, req.NamespacedName, obj)",
          "client.Get with req.NamespacedName (primary resource fetch)"⟩] :=
  c4_get_req_scoped "req" (Expr.ident "r") (Expr.ident "ctx") (Expr.ident "obj") []
    21 "r.Get(ctx, req.NamespacedName, obj)" (by decide)

/-! ### Pattern Detector theorems: loop signals -/

/-! The boolean `hasWrite…` traversal is positive exactly when the count of
client write-verb call nodes is positive. -/
mutual
theorem hasWriteExpr_iff_count : ∀ e : Expr, hasWriteExpr e = true ↔ 0 < countWriteExpr e
  | .ident n => by simp [hasWriteExpr, countWriteExpr]
  | .sel x s => by simpa [hasWriteExpr, countWriteExpr] using hasWriteExpr_iff_count x
  | .call f args l sn => by
      have h1 := hasWriteExpr_iff_count f
      have h2 := hasWriteExprs_iff_count args
      simp only [hasWriteExpr, countWriteExpr, Bool.or_eq_true, h1, h2]
      by_cases hm : isClientWriteFun f = true <;> simp [hm]
  | .star x => by simpa [hasWriteExpr, countWriteExpr] using hasWriteExpr_iff_count x
  | .other => by simp [hasWriteExpr, countWriteExpr]
theorem hasWriteExprs_iff_count : ∀ es : List Expr, hasWriteExprs es = true ↔ 0 < countWriteExprs es
  | [] => by simp [hasWriteExprs, countWriteExprs]
  | a :: as => by
      have h1 := hasWriteExpr_iff_count a
      have h2 := hasWriteExprs_iff_count as
      simp only [hasWriteExprs, countWriteExprs, Bool.or_eq_true, h1, h2]
      omega
end

mutual
theorem hasWriteStmt_iff_count : ∀ st : Stmt, hasWriteStmt st = true ↔ 0 < countWriteStmt st
  | .ret rs => by
      simpa [hasWriteStmt, countWriteStmt] using hasWriteExprs_iff_count rs
  | .ifS cond body els l sn => by
      have h1 := hasWriteExpr_iff_count cond
      have h2 := hasWriteStmts_iff_count body
      have h3 := hasWriteStmts_iff_count els
      simp only [hasWriteStmt, countWriteStmt, Bool.or_eq_true, h1, h2, h3]
      omega
  | .forS body l sn => by
      simpa [hasWriteStmt, countWriteStmt] using hasWriteStmts_iff_count body
  | .rangeS body l sn => by
      simpa [hasWriteStmt, countWriteStmt] using hasWriteStmts_iff_count body
  | .exprS e => by
      simpa [hasWriteStmt, countWriteStmt] using hasWriteExpr_iff_count e
  | .other => by simp [hasWriteStmt, countWriteStmt]
theorem hasWriteStmts_iff_count : ∀ ss : List Stmt, hasWriteStmts ss = true ↔ 0 < countWriteStmts ss
  | [] => by simp [hasWriteStmts, countWriteStmts]
  | s :: ss => by
      have h1 := hasWriteStmt_iff_count s
      have h2 := hasWriteStmts_iff_count ss
      simp only [hasWriteStmts, countWriteStmts, Bool.or_eq_true, h1, h2]
      omega
end

/-- C5: a `for`-loop or `range`-loop whose body contains N ≥ 1 client
write-verb call nodes — anywhere nested inside, counted by `countWriteStmts`
over the same client-call test the detector uses, and independent of any
request-parameter reference (neither traversal takes the request name) —
yields exactly one `loop_write` signal with score +3 carrying the loop's own
line and snippet, not N signals. -/
theorem c5_loop_write_once (body : List Stmt) (line : Nat) (snip : String)
    (h : 1 ≤ countWriteStmts body) :
    detectLoopPatterns (Stmt.forS body line snip)
      = [⟨SignalLoopWrite, line, 3, snip, "Loop containing write operations (SoTW pattern)"⟩] ∧
    detectRangeLoopPatterns (Stmt.rangeS body line snip)
      = [⟨SignalLoopWrite, line, 3, snip, "Loop containing write operations (SoTW pattern)"⟩] := by
  have hw : hasWriteOperation body = true := by
    unfold hasWriteOperation
    exact (hasWriteStmts_iff_count body).mpr (by omega)
  constructor <;> simp [detectLoopPatterns, detectRangeLoopPatterns, hw, SignalLoopWrite]

/-- Witness for C5: a range-loop body holding two write calls
(`r.Update(ctx, item)`, `r.Delete(ctx, item)`), so N = 2, still produces the
single loop-write signal. -/
theorem c5_loop_write_once_witness :
    countWriteStmts
      [Stmt.exprS (Expr.call (Expr.sel (Expr.ident "r") "Update") [Expr.ident "ctx", Expr.ident "item"] 5 "r.Update(ctx, item)"),
       Stmt.exprS (Expr.call (Expr.sel (Expr.ident "r") "Delete") [Expr.ident "ctx", Expr.ident "item"] 6 "r.Delete(ctx, item)")] = 2 ∧
    detectRangeLoopPatterns
      (Stmt.rangeS
        [Stmt.exprS (Expr.call (Expr.sel (Expr.ident "r") "Update") [Expr.ident "ctx", Expr.ident "item"] 5 "r.Update(ctx, item)"),
         Stmt.exprS (Expr.call (Expr.sel (Expr.ident "r") "Delete") [Expr.ident "ctx", Expr.ident "item"] 6 "r.Delete(ctx, item)")]
        4 "for _, item := range items \x7b ... \x7d")
      = [⟨SignalLoopWrite, 4, 3, "for _, item := range items \x7b ... \x7d",
          "Loop containing write operations (SoTW pattern)"⟩] :=
  ⟨by decide,
   (c5_loop_write_once
      [Stmt.exprS (Expr.call (Expr.sel (Expr.ident "r") "Update") [Expr.ident "ctx", Expr.ident "item"] 5 "r.Update(ctx, item)"),
       Stmt.exprS (Expr.call (Expr.sel (Expr.ident "r") "Delete") [Expr.ident "ctx", Expr.ident "item"] 6 "r.Delete(ctx, item)")]
      4 "for _, item := range items \x7b ... \x7d" (by decide)).2⟩

/-! ### Pattern Detector theorems: conditional signals -/

/-- C6: for an if-statement whose condition is a call to a member named
exactly `IsNotFound`: a direct top-level return in the body together with
some top-level return carrying the identifier `nil` among its values gives
exactly one `notfound_ignore` signal (−1); a direct return with no such `nil`
gives exactly one `notfound_early_return` signal (−2); no direct return gives
no signal at all. -/
theorem c6_notfound_dispatch (cond : Expr) (body els : List Stmt) (line : Nat) (snip : String)
    (hcond : isNotFoundCheck cond = true) :
    (isEarlyReturn body = true → isNilReturn body = true →
      detectControlFlowPatterns (Stmt.ifS cond body els line snip)
        = [⟨SignalNotFoundIgnore, line, -1, snip, "Early return on NotFound (ignores deletes)"⟩]) ∧
    (isEarlyReturn body = true → isNilReturn body = false →
      detectControlFlowPatterns (Stmt.ifS cond body els line snip)
        = [⟨SignalNotFoundEarlyReturn, line, -2, snip,
            "NotFound handling with delete logic (classic edge-triggered pattern)"⟩]) ∧
    (isEarlyReturn body = false →
      detectControlFlowPatterns (Stmt.ifS cond body els line snip) = []) := by
  refine ⟨fun h1 h2 => ?_, fun h1 h2 => ?_, fun h1 => ?_⟩
  · simp [detectControlFlowPatterns, hcond, h1, h2, SignalNotFoundIgnore]
  · simp [detectControlFlowPatterns, hcond, h1, h2, SignalNotFoundEarlyReturn]
  · simp [detectControlFlowPatterns, hcond, h1]

/-- Witness for C6 at a concrete statement:
`if apierrors.IsNotFound(err) { return ctrl.Result{}, nil }`. -/
theorem c6_notfound_dispatch_witness :
    detectControlFlowPatterns
      (Stmt.ifS (Expr.call (Expr.sel (Expr.ident "apierrors") "IsNotFound") [Expr.ident "err"] 30 "apierrors.IsNotFound(err)")
        [Stmt.ret [Expr.other, Expr.ident "nil"]] [] 30
        "if apierrors.IsNotFound(err) \x7b return ctrl.Result\x7b\x7d, nil \x7d")
      = [⟨SignalNotFoundIgnore, 30, -1,
          "if apierrors.IsNotFound(err) \x7b return ctrl.Result\x7b\x7d, nil \x7d",
          "Early return on NotFound (ignores deletes)"⟩] :=
  (c6_notfound_dispatch
      (Expr.call (Expr.sel (Expr.ident "apierrors") "IsNotFound") [Expr.ident "err"] 30 "apierrors.IsNotFound(err)")
      [Stmt.ret [Expr.other, Expr.ident "nil"]] [] 30
      "if apierrors.IsNotFound(err) \x7b return ctrl.Result\x7b\x7d, nil \x7d"
      (by decide)).1 (by decide) (by decide)

/-! ### Signature Matcher theorems -/

/-- C7, counterexample.  The claim says the matcher falls back to the
resolved-type description whenever the syntactic name itself lacks the
marker and a resolver is available.  For the bare identifier type `MyCtx`
checked for the `Context` marker, with a resolver available that resolves
every expression to `context.Context` (which contains the marker), the code
still answers `false`: a bare identifier or member access is answered from
its syntactic name alone and the resolver is never consulted for it. -/
theorem c7_syntactic_first_counterexample :
    containsSub "MyCtx" "Context" = false ∧
    containsSub "context.Context" "Context" = true ∧
    typeNameContains (Expr.ident "MyCtx")
      (some fun _ => some "context.Context") "Context" = false := by
  exact ⟨by decide, by decide, rfl⟩

/-- C7 as amended: the matcher answers a bare identifier or member access
from its final syntactic name alone, never consulting the resolver for it;
the resolved-type fallback applies only to type expressions with no such
syntactic name, and when no resolver is available (or it yields no type) the
fallback answers `false` — a silent non-match, never a failure. -/
theorem c7_syntactic_first_amended (resolver : Option (Expr → Option String))
    (substr n s : String) (x e : Expr) :
    typeNameContains (Expr.ident n) resolver substr = containsSub n substr ∧
    typeNameContains (Expr.sel x s) resolver substr = containsSub s substr ∧
    (hasSyntacticTypeName e = false →
      typeNameContains e none substr = false ∧
      ∀ tyOf : Expr → Option String,
        typeNameContains e (some tyOf) substr =
          match tyOf e with
          | some ty => containsSub ty substr
          | none => false) := by
  refine ⟨rfl, rfl, fun h => ⟨?_, fun tyOf => ?_⟩⟩ <;>
    cases e <;> simp_all [hasSyntacticTypeName, typeNameContains]

/-- Witness for the amended C7 at the pointer type `*ctrl.Result`: no
syntactic final identifier, so the `none` resolver yields `false` and a
resolver resolving it to `ctrl.Result` yields `true`. -/
theorem c7_syntactic_first_amended_witness :
    typeNameContains (Expr.star (Expr.sel (Expr.ident "ctrl") "Result")) none "Request" = false ∧
    typeNameContains (Expr.star (Expr.sel (Expr.ident "ctrl") "Result"))
      (some fun _ => some "ctrl.Result") "Result" = true := by
  have h := c7_syntactic_first_amended none "Request" "n" "s" Expr.other
    (Expr.star (Expr.sel (Expr.ident "ctrl") "Result"))
  refine ⟨(h.2.2 (by decide)).1, ?_⟩
  have h2 := c7_syntactic_first_amended (some fun _ => some "ctrl.Result") "Result" "n" "s"
    Expr.other (Expr.star (Expr.sel (Expr.ident "ctrl") "Result"))
  rw [(h2.2.2 (by decide)).2 (fun _ => some "ctrl.Result")]
  decide

/-- C8: a declaration with fewer than two parameters or fewer than two
results never matches the reconciliation signature, for any resolver — a
silent non-match rather than an error (the finder returns only a list, with
no error channel) — and inserting such a declaration anywhere in a file
leaves the selected candidates of the whole tree unchanged. -/
theorem c8_short_signature_non_match (fn : FuncDecl)
    (h : fn.ftype.params.length < 2 ∨ fn.ftype.results.length < 2) :
    (∀ resolver, matchesReconcileSignature resolver fn = false) ∧
    (∀ (pkgs1 pkgs2 : List Pkg) (path : String)
        (tinfo : Option (Expr → Option String)) (files1 files2 : List File)
        (fname : String) (pre post : List FuncDecl),
      FindReconcileFunctions
          (pkgs1 ++ ⟨path, tinfo, files1 ++ ⟨fname, pre ++ fn :: post⟩ :: files2⟩ :: pkgs2)
        = FindReconcileFunctions
          (pkgs1 ++ ⟨path, tinfo, files1 ++ ⟨fname, pre ++ post⟩ :: files2⟩ :: pkgs2)) := by
  have hm : ∀ resolver, matchesReconcileSignature resolver fn = false := by
    intro resolver
    unfold matchesReconcileSignature
    rcases hp : fn.ftype.params with _ | ⟨p0, _ | ⟨p1, ps⟩⟩ <;>
      rcases hq : fn.ftype.results with _ | ⟨r0, _ | ⟨r1, rs⟩⟩ <;>
        first
        | rfl
        | (rw [hp, hq] at h; simp only [List.length_cons] at h; exact absurd h (by omega))
  refine ⟨hm, fun pkgs1 pkgs2 path tinfo files1 files2 fname pre post => ?_⟩
  have hk : ∀ resolver, reconcileDeclKeep resolver fn = false := by
    intro resolver
    unfold reconcileDeclKeep
    rw [hm resolver]
    simp
  by_cases hpath : strEndsWith path "_test" = true
  · simp [FindReconcileFunctions, List.filter_append, List.filter_cons, hpath]
  · by_cases hfname : strEndsWith fname "_test.go" = true
    · simp [FindReconcileFunctions, List.filter_append, List.filter_cons, hpath, hfname]
    · simp [FindReconcileFunctions, List.filter_append, List.filter_cons,
        List.flatMap_append, List.flatMap_cons, List.map_append, hpath, hfname, hk]

/-- Witness for C8: a receiver-bearing `Reconcile` declaration with a single
parameter is not matched, and removing it from a one-file package changes
nothing. -/
theorem c8_short_signature_non_match_witness :
    matchesReconcileSignature none
      ⟨some [⟨["r"], Expr.star (Expr.ident "MyReconciler")⟩], "Reconcile",
        ⟨[⟨["ctx"], Expr.sel (Expr.ident "context") "Context"⟩],
          [⟨[], Expr.sel (Expr.ident "ctrl") "Result"⟩, ⟨[], Expr.ident "error"⟩]⟩⟩ = false := by
  have h := c8_short_signature_non_match
    ⟨some [⟨["r"], Expr.star (Expr.ident "MyReconciler")⟩], "Reconcile",
      ⟨[⟨["ctx"], Expr.sel (Expr.ident "context") "Context"⟩],
        [⟨[], Expr.sel (Expr.ident "ctrl") "Result"⟩, ⟨[], Expr.ident "error"⟩]⟩⟩
    (Or.inl (by decide))
  exact h.1 none

/-- C10: no candidate produced by `FindReconcileFunctions` ever comes from a
package whose import path ends in `_test` or from a file whose name ends in
`_test.go`; such declarations are silently excluded. -/
theorem c10_test_packages_excluded (pkgs : List Pkg) (r : ReconcileFunc)
    (h : r ∈ FindReconcileFunctions pkgs) :
    strEndsWith r.pkgPath "_test" = false ∧
    strEndsWith r.fileName "_test.go" = false := by
  simp only [FindReconcileFunctions, List.mem_flatMap, List.mem_filter,
    List.mem_map] at h
  obtain ⟨p, ⟨hp, hptest⟩, f, ⟨hf, hftest⟩, d, hd, rfl⟩ := h
  simp_all

/-- Witness for C10: `examplePkgs` carries the same well-formed `Reconcile`
declaration in a `_test` package, in a `_test.go` file, and in a normal
file; exactly the normal copy is selected, and its origin is not a test
package or test file. -/
theorem c10_test_packages_excluded_witness :
    FindReconcileFunctions examplePkgs = [exampleReconcileFunc] ∧
    strEndsWith exampleReconcileFunc.pkgPath "_test" = false ∧
    strEndsWith exampleReconcileFunc.fileName "_test.go" = false := by
  refine ⟨rfl, ?_⟩
  exact c10_test_packages_excluded examplePkgs exampleReconcileFunc
    (by rw [show FindReconcileFunctions examplePkgs = [exampleReconcileFunc] from rfl]
        exact List.mem_singleton.mpr rfl)

/-! ### Snippet Extractor theorems -/

theorem fieldsC_fields_ok : ∀ (l acc : List Char), allNonSpace acc = true →
    ∀ w ∈ fieldsC l acc, w ≠ [] ∧ allNonSpace w = true := by
  intro l
  induction l with
  | nil =>
      intro acc hacc w hw
      by_cases h : acc.isEmpty
      · simp [fieldsC, h] at hw
      · simp only [fieldsC, h, if_false, Bool.false_eq_true, List.mem_singleton] at hw
        subst hw
        refine ⟨?_, ?_⟩
        · simp only [ne_eq, List.reverse_eq_nil_iff]
          simpa [List.isEmpty_iff] using h
        · simpa [allNonSpace] using hacc
  | cons c cs ih =>
      intro acc hacc w hw
      rw [fieldsC] at hw
      by_cases hc : isSpaceChar c
      · rw [if_pos hc] at hw
        by_cases he : acc.isEmpty
        · rw [if_pos he] at hw
          exact ih [] rfl w hw
        · rw [if_neg he] at hw
          rcases List.mem_cons.mp hw with rfl | hw'
          · refine ⟨?_, ?_⟩
            · simp only [ne_eq, List.reverse_eq_nil_iff]
              simpa [List.isEmpty_iff] using he
            · simpa [allNonSpace] using hacc
          · exact ih [] rfl w hw'
      · rw [if_neg hc] at hw
        refine ih (c :: acc) ?_ w hw
        simpa [allNonSpace, hc] using hacc

theorem space_beq_of_space (a : Char) (h : isSpaceChar a = false) : (a == ' ') = false := by
  cases hb : a == ' '
  · rfl
  · exact absurd (eq_of_beq hb ▸ h) (by decide)

theorem noDoubleSpace_of_allNonSpace : ∀ l, allNonSpace l = true → noDoubleSpace l = true
  | [] , _ => rfl
  | [_], _ => rfl
  | a :: b :: r, h => by
      simp only [allNonSpace, List.all_cons, Bool.and_eq_true] at h
      rw [noDoubleSpace, space_beq_of_space a (by simpa using h.1)]
      simp only [Bool.false_and, Bool.not_false, Bool.true_and]
      exact noDoubleSpace_of_allNonSpace (b :: r) (by simp [allNonSpace, h.2.1, h.2.2])

theorem noDoubleSpace_append : ∀ w l, allNonSpace w = true → noDoubleSpace l = true →
    noDoubleSpace (w ++ l) = true
  | [], _, _, hl => hl
  | [c], l, hw, hl => by
      cases l with
      | nil => rfl
      | cons d r =>
          rw [List.singleton_append, noDoubleSpace,
            space_beq_of_space c (by simpa [allNonSpace] using hw)]
          simpa using hl
  | a :: b :: w', l, hw, hl => by
      simp only [allNonSpace, List.all_cons, Bool.and_eq_true] at hw
      rw [List.cons_append, List.cons_append, noDoubleSpace,
        space_beq_of_space a (by simpa using hw.1)]
      simp only [Bool.false_and, Bool.not_false, Bool.true_and]
      rw [← List.cons_append]
      exact noDoubleSpace_append (b :: w') l (by simp [allNonSpace, hw.2.1, hw.2.2]) hl

theorem joinSpC_ne_nil : ∀ (v : List Char) (r : List (List Char)), v ≠ [] →
    joinSpC (v :: r) ≠ [] := by
  intro v r hv
  cases r with
  | nil => simpa [joinSpC] using hv
  | cons u s => simp [joinSpC]

theorem joinSpC_ok : ∀ fs : List (List Char),
    (∀ w ∈ fs, w ≠ [] ∧ allNonSpace w = true) →
    onlyPlainSpace (joinSpC fs) = true ∧ noDoubleSpace (joinSpC fs) = true ∧
      noEdgeSpace (joinSpC fs) = true
  | [], _ => by simp [joinSpC, onlyPlainSpace, noDoubleSpace, noEdgeSpace]
  | [w], h => by
      obtain ⟨hne, hns⟩ := h w (by simp)
      have hns' := List.all_eq_true.mp hns
      refine ⟨?_, noDoubleSpace_of_allNonSpace w hns, ?_⟩
      · simp only [joinSpC, onlyPlainSpace, List.all_eq_true]
        intro c hc
        have := hns' c hc
        simp_all
      · rcases w with _ | ⟨c, w'⟩
        · exact absurd rfl hne
        · simp only [joinSpC, noEdgeSpace, Bool.and_eq_true]
          constructor
          · simpa using hns' c (by simp)
          · rcases hrev : (c :: w').reverse with _ | ⟨d, t⟩
            · simp at hrev
            · have hd : d ∈ c :: w' := List.mem_reverse.mp (by simp [hrev])
              simpa using hns' d hd
  | w :: v :: r, h => by
      obtain ⟨hwne, hwns⟩ := h w (by simp)
      have hrest : ∀ u ∈ v :: r, u ≠ [] ∧ allNonSpace u = true := by
        intro u hu
        exact h u (by simp [hu])
      obtain ⟨hvne, _⟩ := hrest v (by simp)
      obtain ⟨ihp, ihd, ihe⟩ := joinSpC_ok (v :: r) hrest
      have hJne : joinSpC (v :: r) ≠ [] := joinSpC_ne_nil v r hvne
      rw [joinSpC]
      refine ⟨?_, ?_, ?_⟩
      · simp only [onlyPlainSpace, List.all_append, List.all_cons, Bool.and_eq_true]
        refine ⟨?_, by decide, by simpa [onlyPlainSpace] using ihp⟩
        simp only [allNonSpace, List.all_eq_true] at hwns
        simp only [List.all_eq_true]
        intro c hc
        simp [hwns c hc]
      · refine noDoubleSpace_append w (' ' :: joinSpC (v :: r)) hwns ?_
        rcases hJ : joinSpC (v :: r) with _ | ⟨j, J⟩
        · rfl
        · rw [noDoubleSpace]
          have hj : isSpaceChar j = false := by
            have := ihe
            rw [hJ] at this
            simp only [noEdgeSpace, Bool.and_eq_true] at this
            simpa using this.1
          rw [space_beq_of_space j hj]
          simp only [Bool.and_false, Bool.not_false, Bool.true_and]
          rw [← hJ]
          exact ihd
      · simp only [noEdgeSpace, Bool.and_eq_true]
        constructor
        · rcases w with _ | ⟨c, w'⟩
          · exact absurd rfl hwne
          · simp only [allNonSpace, List.all_cons, Bool.and_eq_true] at hwns
            simpa using hwns.1
        · rcases hJ : joinSpC (v :: r) with _ | ⟨j, J⟩
          · exact absurd hJ hJne
          · rcases hrev2 : (j :: J).reverse with _ | ⟨d, t⟩
            · simp at hrev2
            · have htot : (w ++ ' ' :: j :: J).reverse = d :: (t ++ ' ' :: w.reverse) := by
                simp [List.reverse_append, hrev2]
              rw [htot]
              have hd : d ∈ j :: J := List.mem_reverse.mp (by simp [hrev2])
              have := ihe
              rw [hJ] at this
              simp only [noEdgeSpace, hrev2, Bool.and_eq_true] at this
              simpa using this.2

theorem collapseC_normalized (l : List Char) : wsNormalized (collapseC l) = true := by
  obtain ⟨h1, h2, h3⟩ := joinSpC_ok (fieldsC l []) (fieldsC_fields_ok l [] rfl)
  simp [wsNormalized, collapseC, h1, h2, h3]

/-- C9: snippet extraction is total and never propagates a fault: with raw
source present and valid offsets it truncates the `[start, end)` slice;
otherwise it truncates the first renderer's output, else the second's, and
only when both renderers error does it return the explicit `"<unprintable>"`
placeholder.  Truncation normalizes whitespace (no whitespace other than
single interior plain spaces, none at either end — subsuming the trim) and
caps the result at 200 characters plus the three-character ellipsis marker,
appended exactly when the normalized text overflows. -/
theorem c9_extract_snippet_total (fileData : Option String) (n : SnippetNode) (s : String) :
    (sliceValid fileData n = true →
      ∃ data, fileData = some data ∧
        extractSnippet fileData n = truncateSnippet (sliceOf data n)) ∧
    (sliceValid fileData n = false → extractSnippet fileData n = renderFallback n) ∧
    (n.render1 = none → n.render2 = none → renderFallback n = "<unprintable>") ∧
    (∀ s1, n.render1 = some s1 → renderFallback n = truncateSnippet s1) ∧
    (∀ s2, n.render1 = none → n.render2 = some s2 → renderFallback n = truncateSnippet s2) ∧
    (truncateSnippet s).data.length ≤ 203 ∧
    ((collapseC s.data).length ≤ 200 → truncateSnippet s = String.mk (collapseC s.data)) ∧
    (200 < (collapseC s.data).length →
      truncateSnippet s = String.mk ((collapseC s.data).take 200 ++ ['.', '.', '.']) ∧
      (truncateSnippet s).data.length = 203) ∧
    wsNormalized (collapseC s.data) = true := by
  refine ⟨?_, ?_, ?_, ?_, ?_, ?_, ?_, ?_, collapseC_normalized s.data⟩
  · intro hv
    cases fileData with
    | none => simp [sliceValid] at hv
    | some data => exact ⟨data, rfl, by unfold extractSnippet; rw [if_pos hv]⟩
  · intro hv
    unfold extractSnippet
    rw [if_neg]
    simp [hv]
  · intro h1 h2
    rw [renderFallback, h1, h2]
  · intro s1 h1
    rw [renderFallback, h1]
  · intro s2 h1 h2
    rw [renderFallback, h1, h2]
  · unfold truncateSnippet
    by_cases h : 200 < (collapseC s.data).length
    · rw [if_pos h]
      show ((collapseC s.data).take 200 ++ ['.', '.', '.']).length ≤ 203
      simp only [List.length_append, List.length_take, List.length_cons, List.length_nil]
      omega
    · rw [if_neg h]
      show (collapseC s.data).length ≤ 203
      omega
  · intro h
    unfold truncateSnippet
    rw [if_neg (by omega)]
  · intro h
    unfold truncateSnippet
    rw [if_pos h]
    refine ⟨rfl, ?_⟩
    show ((collapseC s.data).take 200 ++ ['.', '.', '.']).length = 203
    simp only [List.length_append, List.length_take, List.length_cons, List.length_nil]
    omega

/-- Witness for C9: empty file data and failing renderers produce the
placeholder, and truncation of a concrete messy string both normalizes it
and leaves short text untruncated. -/
theorem c9_extract_snippet_total_witness :
    extractSnippet (some "") ⟨0, 0, none, none⟩ = "<unprintable>" ∧
    truncateSnippet "  if err \x09 != nil  " = "if err != nil" := by
  constructor
  · have h := c9_extract_snippet_total (some "") ⟨0, 0, none, none⟩ ""
    rw [h.2.1 (by decide), h.2.2.1 rfl rfl]
  · have h := c9_extract_snippet_total none ⟨0, 0, none, none⟩ "  if err \x09 != nil  "
    rw [h.2.2.2.2.2.2.1 (by decide)]
    decide

end Survey
